import Mathlib

/-!
Verification of the parser-combinator core of src/main.cpp.

The C++ code is shallowly embedded: std::string becomes List Char, the
Result struct becomes a Lean structure, and a Parser (std::function from
string to Result) becomes a function from input to Option Result, where
none models non-termination of the unbounded while-loops in many/many1
(those loops receive an explicit fuel counter).
-/

namespace PC

/-- Strings of the C++ source (std::string values) are modelled as lists of characters. -/
abbrev Str := List Char

/-- AST node: the ResultItem struct of src/main.cpp, a name together with a
variant that is either leaf text or a vector of child items. -/
inductive ResultItem where
  | leaf (name : String) (value : Str)
  | node (name : String) (value : List ResultItem)

/-- ResultMap alias of src/main.cpp (vector of ResultItem). -/
abbrev ResultMap := List ResultItem

/-- ResultType enum of src/main.cpp. -/
inductive ResultType where
  | Success
  | Failure
  deriving DecidableEq

/-- Result struct of src/main.cpp. -/
structure Result where
  status : ResultType
  matched : Str
  rest : Str
  error : String
  results : ResultMap

/-- Result::failure of src/main.cpp: empty matched/rest, empty results vector. -/
def Result.failure (error : String) : Result :=
  ⟨ResultType.Failure, [], [], error, []⟩

/-- Result::success of src/main.cpp: empty error, empty results vector. -/
def Result.success (matched rest : Str) : Result :=
  ⟨ResultType.Success, matched, rest, "", []⟩

/-- Result::isFailure of src/main.cpp. -/
def Result.isFailure (r : Result) : Bool := r.status == ResultType.Failure

/-- Result::isSuccess of src/main.cpp. -/
def Result.isSuccess (r : Result) : Bool := r.status == ResultType.Success

/-- Overload Result::add(string, string) of src/main.cpp: appends a leaf node
only when the text is non-empty. -/
def Result.addText (r : Result) (name : String) (value : Str) : Result :=
  if value.length > 0 then { r with results := r.results ++ [ResultItem.leaf name value] }
  else r

/-- Overload Result::add(string, ResultMap) of src/main.cpp: always appends a
structured node. -/
def Result.addItems (r : Result) (name : String) (value : ResultMap) : Result :=
  { r with results := r.results ++ [ResultItem.node name value] }

/-- Result::combine of src/main.cpp: appends the other result's items in order. -/
def Result.combine (r : Result) (other : Result) : Result :=
  { r with results := r.results ++ other.results }

/-- The Parser alias of src/main.cpp (std::function from string to Result).
A call that never returns (the many/many1 loops on a non-consuming inner
parser) is modelled by the value none. -/
abbrev Parser := Str → Option Result

/-- Single-quote character (code point 39), used by the mismatch message. -/
def quoteChar : Char := Char.ofNat 39

/-- The mismatch message parseChar builds with a stringstream: it quotes the
expected character and then the actual character. -/
def mismatchError (expected got : Char) : String :=
  "Expected " ++ String.mk [quoteChar] ++ String.mk [expected] ++ String.mk [quoteChar] ++
    " but got " ++ String.mk [quoteChar] ++ String.mk [got] ++ String.mk [quoteChar]

/-- parseChar of src/main.cpp; both error strings are verbatim from the source. -/
def parseChar (ch : Char) : Parser := fun source =>
  some (match source with
    | [] => Result.failure "End of imput stream."
    | firstChar :: restChars =>
      if firstChar = ch then Result.success [firstChar] restChars
      else Result.failure (mismatchError ch firstChar))

/-- andThen of src/main.cpp. -/
def andThen (parser1 parser2 : Parser) : Parser := fun source =>
  (parser1 source).bind fun result1 =>
    if result1.isFailure then some result1
    else
      (parser2 result1.rest).bind fun result2 =>
        if result2.isFailure then some result2
        else some (((Result.success (result1.matched ++ result2.matched) result2.rest).combine
          result1).combine result2)

/-- orElse of src/main.cpp. -/
def orElse (parser1 parser2 : Parser) : Parser := fun source =>
  (parser1 source).bind fun result1 =>
    if result1.isSuccess then some result1
    else parser2 source

/-- reduce of src/main.cpp: it reads parsers[0] with no emptiness check (an
out-of-bounds access for an empty vector, modelled by none) and then
left-folds the reducer over the remaining elements, from index 1 upward. -/
def reduce (parsers : List Parser) (reducer : Parser → Parser → Parser) : Option Parser :=
  (parsers.head?).map fun first => parsers.tail.foldl reducer first

/-- mapWith of src/main.cpp, at the only instantiation used (string source,
parseChar-like mapper). -/
def mapWith (source : Str) (mapper : Char → Parser) : List Parser := source.map mapper

/-- choice of src/main.cpp. -/
def choice (parsers : List Parser) : Option Parser := reduce parsers orElse

/-- anyOf (string overload) of src/main.cpp. -/
def anyOf (value : Str) : Option Parser := choice (mapWith value parseChar)

/-- parseString of src/main.cpp. -/
def parseString (value : Str) : Option Parser := reduce (mapWith value parseChar) andThen

/-- sequence of src/main.cpp. -/
def sequence (parsers : List Parser) : Option Parser := reduce parsers andThen

/-- nullParser of src/main.cpp. -/
def nullParser : Parser := fun source => some (Result.success [] source)

/-- opt of src/main.cpp is choice {parser, nullParser}; a two-element choice
reduces definitionally to a single orElse (lemma choice_pair below). -/
def opt (parser : Parser) : Parser := orElse parser nullParser

/-- Loop body of many of src/main.cpp, with an explicit fuel bound on the
number of iterations; none models a loop that has not yet exited. -/
def manyStep (parser : Parser) : Nat → Str → Str → ResultMap → Option Result
  | 0, _, _, _ => none
  | fuel + 1, matched, input, items =>
    (parser input).bind fun result =>
      if result.isFailure then
        some { Result.success matched input with results := items }
      else
        manyStep parser fuel (matched ++ result.matched) result.rest
          (if result.results.length > 0 then items ++ [ResultItem.node "item" result.results]
           else items)

/-- many of src/main.cpp, fuelled. -/
def many (parser : Parser) (fuel : Nat) : Parser := fun source =>
  manyStep parser fuel [] source []

/-- Loop body of many1 of src/main.cpp, with an explicit fuel bound. -/
def many1Step (parser : Parser) : Nat → Str → Str → Option Result
  | 0, _, _ => none
  | fuel + 1, matched, input =>
    (parser input).bind fun result =>
      if result.isFailure then
        if matched.length = 0 then some result
        else some (Result.success matched input)
      else many1Step parser fuel (matched ++ result.matched) result.rest

/-- many1 of src/main.cpp, fuelled. -/
def many1 (parser : Parser) (fuel : Nat) : Parser := fun source =>
  many1Step parser fuel [] source

/-- takeLeft of src/main.cpp, verbatim: it runs parser1, then runs parser1
again on the rest field of the first result (without checking its status),
and never calls parser2. -/
def takeLeft (parser1 parser2 : Parser) : Parser := fun source =>
  (parser1 source).bind fun result1 => parser1 result1.rest

/-- mapTo of src/main.cpp. -/
def mapTo (parser : Parser) (name : String) : Parser := fun source =>
  (parser source).map fun result =>
    if result.isSuccess then
      if result.results.length = 0 then
        result.addText name result.matched
      else
        (Result.success result.matched result.rest).addItems name result.results
    else result

/-- listOf of src/main.cpp; its two sequence calls are over concrete non-empty
vectors and are written here in their reduced andThen form (lemmas
sequence_pair and sequence_quad below show the fold produces exactly these). -/
def listOf (whiteSpace parser : Parser) (separator : Char) (fuel : Nat) : Parser :=
  andThen
    (mapTo (opt (andThen whiteSpace parser)) "item")
    (many (andThen (andThen (andThen whiteSpace (parseChar separator)) whiteSpace) parser) fuel)

/-- refParser of src/main.cpp dereferences its slot at parse time and delegates;
it is modelled with the slot already populated by the given parser. -/
def refParser (reference : Parser) : Parser := fun source => reference source

/-- Specification-side sequential runner, following the spec's words for
sequence: run the head parser; on failure propagate that failure; on success
run the remaining chain on its rest; on failure of the chain propagate it; on
double success combine matched text, take the chain's rest, and append the
results left to right. -/
def seqSpec : Parser → List Parser → Str → Option Result
  | p, [], source => p source
  | p, q :: qs, source =>
    (p source).bind fun r1 =>
      if r1.isFailure then some r1
      else
        (seqSpec q qs r1.rest).bind fun r2 =>
          if r2.isFailure then some r2
          else some ⟨ResultType.Success, r1.matched ++ r2.matched, r2.rest, "",
            r1.results ++ r2.results⟩

/-- Specification-side alternation runner, following the spec's words for
choice: try the alternatives on the same original input in order, committing
to the first success; the outcome of the last tried alternative is returned
verbatim and earlier failures are discarded. -/
def altSpec : Parser → List Parser → Str → Option Result
  | p, [], source => p source
  | p, q :: qs, source =>
    (p source).bind fun r1 =>
      if r1.isSuccess then some r1
      else altSpec q qs source

/-- Iterated-application relation: Iters p s rs rest holds when p applied from
s yields the successful results rs in order, each run starting at the previous
result's rest, and the next application at rest fails. -/
inductive Iters (p : Parser) : Str → List Result → Str → Prop where
  | stop {s rf} : p s = some rf → rf.status = ResultType.Failure → Iters p s [] s
  | step {s r rs rest} : p s = some r → r.status = ResultType.Success →
      Iters p r.rest rs rest → Iters p s (r :: rs) rest

/-- Item-node selection performed by the many loop: one node labeled "item"
per iteration whose results were non-empty, in iteration order. -/
def itemNodes (rs : List Result) : ResultMap :=
  rs.filterMap fun r =>
    if r.results.length > 0 then some (ResultItem.node "item" r.results) else none

/-- Chain of success results that all matched the empty string, ending in a
failure; this is the only way the many1 loop can exit through its failure
branch after at least one successful iteration. -/
inductive EmptyChain (p : Parser) : Str → Result → Prop where
  | fail {s r} : p s = some r → r.status = ResultType.Failure → EmptyChain p s r
  | step {s r0 r} : p s = some r0 → r0.status = ResultType.Success →
      r0.matched = [] → EmptyChain p r0.rest r → EmptyChain p s r

/-- Success invariant of the data model (spec section 3): on success, the
matched prefix concatenated with the rest reproduces the input. -/
def Inv (p : Parser) : Prop :=
  ∀ s r, p s = some r → r.status = ResultType.Success → r.matched ++ r.rest = s

/-- Parsers built from the exposed constructors and combinators of
src/main.cpp; the derived ones (sequence, choice, anyOf, parseString, opt,
listOf) are folds or compositions of these and are covered by the
built_sequence, built_choice, built_anyOf, built_parseString, built_opt and
built_listOf lemmas below. -/
inductive Built : Parser → Prop where
  | pcharB (c : Char) : Built (parseChar c)
  | nullB : Built nullParser
  | andThenB {p1 p2} : Built p1 → Built p2 → Built (andThen p1 p2)
  | orElseB {p1 p2} : Built p1 → Built p2 → Built (orElse p1 p2)
  | manyB {p} (fuel : Nat) : Built p → Built (many p fuel)
  | many1B {p} (fuel : Nat) : Built p → Built (many1 p fuel)
  | mapToB {p} (name : String) : Built p → Built (mapTo p name)
  | refB {p} : Built p → Built (refParser p)

/-- Lemma: a two-element choice folds to a single orElse, as used by opt. -/
theorem choice_pair (p q : Parser) : choice [p, q] = some (orElse p q) := rfl

/-- Lemma: a two-element sequence folds to a single andThen. -/
theorem sequence_pair (p q : Parser) : sequence [p, q] = some (andThen p q) := rfl

/-- Lemma: a four-element sequence folds to left-nested andThen, as used by listOf. -/
theorem sequence_quad (p q r s : Parser) :
    sequence [p, q, r, s] = some (andThen (andThen (andThen p q) r) s) := rfl

theorem isFailure_iff (r : Result) : r.isFailure = true ↔ r.status = ResultType.Failure := by
  simp [Result.isFailure]

theorem isFailure_eq_false_iff (r : Result) :
    r.isFailure = false ↔ r.status = ResultType.Success := by
  cases h : r.status <;> simp [Result.isFailure, h]

theorem isSuccess_iff (r : Result) : r.isSuccess = true ↔ r.status = ResultType.Success := by
  simp [Result.isSuccess]

theorem isSuccess_eq_false_iff (r : Result) :
    r.isSuccess = false ↔ r.status = ResultType.Failure := by
  cases h : r.status <;> simp [Result.isSuccess, h]

@[simp] theorem isFailure_mk_success (m rst : Str) (e : String) (res : ResultMap) :
    (Result.mk ResultType.Success m rst e res).isFailure = false := rfl

@[simp] theorem isFailure_mk_failure (m rst : Str) (e : String) (res : ResultMap) :
    (Result.mk ResultType.Failure m rst e res).isFailure = true := rfl

@[simp] theorem isSuccess_mk_success (m rst : Str) (e : String) (res : ResultMap) :
    (Result.mk ResultType.Success m rst e res).isSuccess = true := rfl

@[simp] theorem isSuccess_mk_failure (m rst : Str) (e : String) (res : ResultMap) :
    (Result.mk ResultType.Failure m rst e res).isSuccess = false := rfl

/-- Claim C7: parseChar (the literal parser) fails on empty input with the
end-of-input error, succeeds on a matching first character with that one
character matched and the remainder as rest, and fails on a mismatch with a
message naming both the expected and the actual character. -/
theorem parseChar_spec (c : Char) :
    parseChar c [] = some (Result.failure "End of imput stream.") ∧
    (∀ s : Str, parseChar c (c :: s) = some (Result.success [c] s)) ∧
    (∀ (x : Char) (s : Str), x ≠ c →
      parseChar c (x :: s) = some (Result.failure (mismatchError c x))) := by
  exact ⟨rfl, fun s => by simp [parseChar], fun x s hx => by simp [parseChar, hx]⟩

/-- Witness for parseChar_spec at concrete inputs. -/
theorem parseChar_spec_w :
    parseChar 'a' ['b', 'c'] = some (Result.failure (mismatchError 'a' 'b')) :=
  (parseChar_spec 'a').2.2 'b' ['c'] (by decide)

/-- Claim C8: takeLeft runs its first parser, then runs the first parser again
on the rest field of the first result with no status check, returns that
second result, and never invokes its second parser (the outcome is invariant
under replacing the second parser). -/
theorem takeLeft_spec (parser1 parser2 : Parser) (s : Str) :
    takeLeft parser1 parser2 s = (parser1 s).bind (fun r1 => parser1 r1.rest) ∧
    (∀ other : Parser, takeLeft parser1 parser2 s = takeLeft parser1 other s) ∧
    (∀ r1, parser1 s = some r1 → takeLeft parser1 parser2 s = parser1 r1.rest) := by
  refine ⟨rfl, fun _ => rfl, fun r1 h => ?_⟩
  simp [takeLeft, h]

/-- Witness for takeLeft_spec: the second application of the first parser is
what is returned (here it fails, although a correct takeLeft would have run
the second parser). -/
theorem takeLeft_spec_w :
    takeLeft (parseChar 'a') (parseChar 'b') ['a', 'b'] =
      some (Result.failure (mismatchError 'a' 'b')) :=
  ((takeLeft_spec (parseChar 'a') (parseChar 'b') ['a', 'b']).2.2
    (Result.success ['a'] ['b']) rfl).trans rfl

/-- Claim C10: reduce reads the head element with no emptiness check; the
access is defined exactly for non-empty parser lists, where reduce is the
left fold of the reducer, and it has no defined result on the empty list, as
reached by parseString and anyOf on the empty string. -/
theorem reduce_spec :
    (∀ reducer, reduce [] reducer = none) ∧
    (∀ (p : Parser) (ps : List Parser) (reducer),
      reduce (p :: ps) reducer = some (ps.foldl reducer p)) ∧
    (∀ (ps : List Parser) (reducer), (reduce ps reducer).isSome ↔ ps ≠ []) ∧
    parseString [] = none ∧ anyOf [] = none := by
  refine ⟨fun _ => rfl, fun p ps reducer => rfl, fun ps reducer => ?_, rfl, rfl⟩
  cases ps <;> simp [reduce]

theorem seqSpec_andThen (p q : Parser) (qs : List Parser) (s : Str) :
    seqSpec (andThen p q) qs s = seqSpec p (q :: qs) s := by
  cases qs with
  | nil =>
    simp only [seqSpec]
    cases hp : p s with
    | none => simp [andThen, hp]
    | some r1 =>
      obtain ⟨st1, m1, rst1, e1, res1⟩ := r1
      cases st1 with
      | Failure => simp [andThen, hp]
      | Success =>
        cases hq : q rst1 with
        | none => simp [andThen, hp, hq]
        | some r2 =>
          obtain ⟨st2, m2, rst2, e2, res2⟩ := r2
          cases st2 with
          | Failure => simp [andThen, hp, hq]
          | Success => simp [andThen, hp, hq, Result.success, Result.combine]
  | cons w ws =>
    simp only [seqSpec]
    cases hp : p s with
    | none => simp [andThen, hp]
    | some r1 =>
      obtain ⟨st1, m1, rst1, e1, res1⟩ := r1
      cases st1 with
      | Failure => simp [andThen, hp]
      | Success =>
        cases hq : q rst1 with
        | none => simp [andThen, hp, hq]
        | some r2 =>
          obtain ⟨st2, m2, rst2, e2, res2⟩ := r2
          cases st2 with
          | Failure => simp [andThen, hp, hq]
          | Success =>
            simp only [andThen, hp, hq, Option.some_bind, isFailure_mk_success,
              Bool.false_eq_true, if_false, Result.success, Result.combine]
            cases hw : seqSpec w ws rst2 with
            | none => rfl
            | some r3 =>
              obtain ⟨st3, m3, rst3, e3, res3⟩ := r3
              cases st3 with
              | Failure => simp
              | Success => simp [List.append_assoc]

theorem foldl_andThen_eq_seqSpec (qs : List Parser) (p : Parser) (s : Str) :
    (List.foldl andThen p qs) s = seqSpec p qs s := by
  induction qs generalizing p with
  | nil => rfl
  | cons q qs ih =>
    calc (List.foldl andThen p (q :: qs)) s
        = (List.foldl andThen (andThen p q) qs) s := rfl
      _ = seqSpec (andThen p q) qs s := ih (andThen p q)
      _ = seqSpec p (q :: qs) s := seqSpec_andThen p q qs s

/-- Claim C1: andThen runs its first parser and propagates a failure
unchanged; on success it runs the second parser on the first's rest,
propagating its failure; on double success it returns Success with the
concatenated matched text, the second rest, and the results appended left to
right; sequence over a non-empty list is the left fold of andThen and agrees
with the specification-side sequential runner on every input. -/
theorem andThen_sequence_spec (parser1 parser2 : Parser) (s : Str) :
    (∀ r1, parser1 s = some r1 → r1.status = ResultType.Failure →
      andThen parser1 parser2 s = some r1) ∧
    (∀ r1 r2, parser1 s = some r1 → r1.status = ResultType.Success →
      parser2 r1.rest = some r2 → r2.status = ResultType.Failure →
      andThen parser1 parser2 s = some r2) ∧
    (∀ r1 r2, parser1 s = some r1 → r1.status = ResultType.Success →
      parser2 r1.rest = some r2 → r2.status = ResultType.Success →
      andThen parser1 parser2 s = some ⟨ResultType.Success, r1.matched ++ r2.matched,
        r2.rest, "", r1.results ++ r2.results⟩) ∧
    (∀ ps : List Parser, sequence (parser1 :: ps) = some (List.foldl andThen parser1 ps)) ∧
    (∀ ps : List Parser, (List.foldl andThen parser1 ps) s = seqSpec parser1 ps s) := by
  refine ⟨?_, ?_, ?_, fun ps => rfl, fun ps => foldl_andThen_eq_seqSpec ps parser1 s⟩
  · intro r1 h1 hst
    simp [andThen, h1, Result.isFailure, hst]
  · intro r1 r2 h1 hst1 h2 hst2
    simp [andThen, h1, h2, Result.isFailure, hst1, hst2]
  · intro r1 r2 h1 hst1 h2 hst2
    simp [andThen, h1, h2, Result.isFailure, hst1, hst2, Result.success, Result.combine]

/-- Witness for andThen_sequence_spec at concrete inputs. -/
theorem andThen_sequence_spec_w :
    andThen (parseChar 'a') (parseChar 'b') ['a', 'b', 'c'] =
      some ⟨ResultType.Success, ['a', 'b'], ['c'], "", []⟩ :=
  (andThen_sequence_spec (parseChar 'a') (parseChar 'b') ['a', 'b', 'c']).2.2.1
    (Result.success ['a'] ['b', 'c']) (Result.success ['b'] ['c']) rfl rfl rfl rfl

theorem altSpec_orElse (p q : Parser) (qs : List Parser) (s : Str) :
    altSpec (orElse p q) qs s = altSpec p (q :: qs) s := by
  cases qs with
  | nil =>
    simp only [altSpec]
    cases hp : p s with
    | none => simp [orElse, hp]
    | some r1 =>
      cases hst : r1.status
      case Success => simp [orElse, hp, Result.isSuccess, hst]
      case Failure => simp [orElse, hp, Result.isSuccess, hst]
  | cons w ws =>
    simp only [altSpec]
    cases hp : p s with
    | none => simp [orElse, hp]
    | some r1 =>
      cases hst : r1.status
      case Success => simp [orElse, hp, Result.isSuccess, hst]
      case Failure => simp [orElse, hp, Result.isSuccess, hst]

theorem foldl_orElse_eq_altSpec (qs : List Parser) (p : Parser) (s : Str) :
    (List.foldl orElse p qs) s = altSpec p qs s := by
  induction qs generalizing p with
  | nil => rfl
  | cons q qs ih =>
    calc (List.foldl orElse p (q :: qs)) s
        = (List.foldl orElse (orElse p q) qs) s := rfl
      _ = altSpec (orElse p q) qs s := ih (orElse p q)
      _ = altSpec p (q :: qs) s := altSpec_orElse p q qs s

/-- Claim C2: orElse returns the first parser's result verbatim when it
succeeds; when the first parser fails, the whole call equals the second
parser applied to the same original input, so the first error message is
discarded; choice over a non-empty list is the left fold of orElse and agrees
with the specification-side alternation runner on every input. -/
theorem orElse_choice_spec (parser1 parser2 : Parser) (s : Str) :
    (∀ r1, parser1 s = some r1 → r1.status = ResultType.Success →
      orElse parser1 parser2 s = some r1) ∧
    (∀ r1, parser1 s = some r1 → r1.status = ResultType.Failure →
      orElse parser1 parser2 s = parser2 s) ∧
    (∀ ps : List Parser, choice (parser1 :: ps) = some (List.foldl orElse parser1 ps)) ∧
    (∀ ps : List Parser, (List.foldl orElse parser1 ps) s = altSpec parser1 ps s) := by
  refine ⟨?_, ?_, fun ps => rfl, fun ps => foldl_orElse_eq_altSpec ps parser1 s⟩
  · intro r1 h1 hst
    simp [orElse, h1, Result.isSuccess, hst]
  · intro r1 h1 hst
    simp [orElse, h1, Result.isSuccess, hst]

/-- Witness for orElse_choice_spec at concrete inputs: the first alternative
fails, the second one runs on the same original input and its result is
returned verbatim. -/
theorem orElse_choice_spec_w :
    orElse (parseChar 'a') (parseChar 'b') ['b'] = some (Result.success ['b'] []) :=
  ((orElse_choice_spec (parseChar 'a') (parseChar 'b') ['b']).2.1
    (Result.failure (mismatchError 'a' 'b')) rfl rfl).trans rfl

/-- Claim C5: mapTo passes failures through unchanged; on success with empty
results it appends a single leaf only when the matched text is non-empty
(otherwise the result is returned unchanged); on success with non-empty
results it returns a fresh success carrying the same matched and rest whose
only node is the structured node wrapping those results; the concrete example
mapTo (parseChar literal-a) x on input a yields exactly one leaf. -/
theorem mapTo_spec (parser : Parser) (name : String) (s : Str) :
    (∀ r, parser s = some r → r.status = ResultType.Failure →
      mapTo parser name s = some r) ∧
    (∀ r, parser s = some r → r.status = ResultType.Success → r.results = [] →
      r.matched ≠ [] →
      mapTo parser name s = some { r with results := [ResultItem.leaf name r.matched] }) ∧
    (∀ r, parser s = some r → r.status = ResultType.Success → r.results = [] →
      r.matched = [] → mapTo parser name s = some r) ∧
    (∀ r, parser s = some r → r.status = ResultType.Success → r.results ≠ [] →
      mapTo parser name s = some ⟨ResultType.Success, r.matched, r.rest, "",
        [ResultItem.node name r.results]⟩) ∧
    mapTo (parseChar 'a') "x" ['a'] =
      some ⟨ResultType.Success, ['a'], [], "", [ResultItem.leaf "x" ['a']]⟩ := by
  refine ⟨?_, ?_, ?_, ?_, rfl⟩
  · intro r h hst
    simp [mapTo, h, Result.isSuccess, hst]
  · intro r h hst hres hm
    have hlen : 0 < r.matched.length := List.length_pos.mpr hm
    simp [mapTo, h, Result.isSuccess, hst, hres, Result.addText, hlen]
  · intro r h hst hres hm
    simp [mapTo, h, Result.isSuccess, hst, hres, Result.addText, hm]
  · intro r h hst hres
    have hlen : r.results.length ≠ 0 := by simpa [List.length_eq_zero] using hres
    simp [mapTo, h, Result.isSuccess, hst, hlen, Result.addItems, Result.success]

/-- Witness for mapTo_spec at concrete inputs: an inner mapTo produces a
leaf, an outer mapTo wraps the now non-empty results in a structured node. -/
theorem mapTo_spec_w :
    mapTo (mapTo (parseChar 'a') "x") "y" ['a'] =
      some ⟨ResultType.Success, ['a'], [], "", [ResultItem.node "y"
        [ResultItem.leaf "x" ['a']]]⟩ :=
  ((mapTo_spec (mapTo (parseChar 'a') "x") "y" ['a']).2.2.2.1
    ⟨ResultType.Success, ['a'], [], "", [ResultItem.leaf "x" ['a']]⟩ rfl rfl
    (by simp)).trans rfl

theorem manyStep_some (parser : Parser) :
    ∀ (fuel : Nat) (matched input : Str) (items : ResultMap) (r : Result),
      manyStep parser fuel matched input items = some r →
      r.status = ResultType.Success ∧ r.error = "" ∧
      ∃ rs, Iters parser input rs r.rest ∧
        r.matched = matched ++ (rs.map Result.matched).flatten ∧
        r.results = items ++ itemNodes rs := by
  intro fuel
  induction fuel with
  | zero => intro matched input items r h; exact absurd h (by simp [manyStep])
  | succ fuel ih =>
    intro matched input items r h
    rw [manyStep] at h
    cases hp : parser input with
    | none => rw [hp] at h; exact absurd h (by simp)
    | some r0 =>
      rw [hp] at h
      obtain ⟨st0, m0, rst0, e0, res0⟩ := r0
      cases st0 with
      | Failure =>
        simp only [Option.some_bind, isFailure_mk_failure, if_true] at h
        injection h with h
        subst h
        refine ⟨rfl, rfl, [], Iters.stop hp rfl, by simp [Result.success], by simp [itemNodes, Result.success]⟩
      | Success =>
        simp only [Option.some_bind, isFailure_mk_success, Bool.false_eq_true,
          if_false] at h
        obtain ⟨hst, herr, rs, hit, hm, hres⟩ := ih _ _ _ _ h
        refine ⟨hst, herr, ⟨ResultType.Success, m0, rst0, e0, res0⟩ :: rs,
          Iters.step hp rfl hit, ?_, ?_⟩
        · simp [hm, List.append_assoc]
        · by_cases h0 : res0.length > 0 <;>
            simp [hres, itemNodes, List.filterMap_cons, h0, List.append_assoc]

/-- Claim C3: the fuelled many loop, whenever it returns, returns Success:
the matched text is the concatenation of the successful iterations of the
parser, the rest is the input position at which the first failing application
occurred, and the results are one item node per iteration that produced
non-empty results, in order; in particular when the parser fails immediately,
many returns Success with empty matched text on the original input. -/
theorem many_spec (parser : Parser) (fuel : Nat) (s : Str) :
    (∀ r, many parser fuel s = some r →
      r.status = ResultType.Success ∧
      ∃ rs, Iters parser s rs r.rest ∧
        r.matched = (rs.map Result.matched).flatten ∧
        r.results = itemNodes rs) ∧
    (∀ rf, parser s = some rf → rf.status = ResultType.Failure → 0 < fuel →
      many parser fuel s = some (Result.success [] s)) := by
  constructor
  · intro r h
    obtain ⟨hst, herr, rs, hit, hm, hres⟩ := manyStep_some parser fuel [] s [] r h
    exact ⟨hst, rs, hit, by simpa using hm, by simpa using hres⟩
  · intro rf hp hst hfuel
    obtain ⟨n, rfl⟩ : ∃ n, fuel = n + 1 := ⟨fuel - 1, by omega⟩
    obtain ⟨stf, mf, rstf, ef, resf⟩ := rf
    cases stf with
    | Success => exact absurd hst (by simp)
    | Failure => simp [many, manyStep, hp, Result.success]

/-- Witness for many_spec at concrete inputs: the inner parser fails at once
and many still succeeds with empty matched text. -/
theorem many_spec_w :
    many (parseChar 'a') 3 ['b'] = some (Result.success [] ['b']) :=
  (many_spec (parseChar 'a') 3 ['b']).2
    (Result.failure (mismatchError 'a' 'b')) rfl rfl (by decide)

theorem many1Step_some (parser : Parser) :
    ∀ (fuel : Nat) (matched input : Str) (r : Result),
      many1Step parser fuel matched input = some r →
      (r.status = ResultType.Failure → matched = [] ∧ EmptyChain parser input r) ∧
      (r.status = ResultType.Success → r.error = "" ∧ r.results = [] ∧
        ∃ rs, Iters parser input rs r.rest ∧
          r.matched = matched ++ (rs.map Result.matched).flatten ∧
          (matched = [] → rs ≠ [])) := by
  intro fuel
  induction fuel with
  | zero => intro matched input r h; exact absurd h (by simp [many1Step])
  | succ fuel ih =>
    intro matched input r h
    rw [many1Step] at h
    cases hp : parser input with
    | none => rw [hp] at h; exact absurd h (by simp)
    | some r0 =>
      rw [hp] at h
      obtain ⟨st0, m0, rst0, e0, res0⟩ := r0
      cases st0 with
      | Failure =>
        simp only [Option.some_bind, isFailure_mk_failure, if_true] at h
        by_cases hm : matched.length = 0
        · rw [if_pos hm] at h
          injection h with h
          subst h
          have hmn : matched = [] := List.length_eq_zero.mp hm
          constructor
          · intro _; exact ⟨hmn, EmptyChain.fail hp rfl⟩
          · intro hs; exact absurd hs (by simp)
        · rw [if_neg hm] at h
          injection h with h
          subst h
          constructor
          · intro hf; exact absurd hf (by simp [Result.success])
          · intro _
            refine ⟨rfl, rfl, [], Iters.stop hp rfl, by simp [Result.success], ?_⟩
            intro hmn
            exact absurd (by simp [hmn] : matched.length = 0) hm
      | Success =>
        simp only [Option.some_bind, isFailure_mk_success, Bool.false_eq_true,
          if_false] at h
        have ihh := ih _ _ _ h
        constructor
        · intro hf
          obtain ⟨hm, hchain⟩ := ihh.1 hf
          obtain ⟨hm1, hm2⟩ := List.append_eq_nil.mp hm
          exact ⟨hm1, EmptyChain.step hp rfl hm2 hchain⟩
        · intro hs
          obtain ⟨herr, hres, rs, hit, hm, _⟩ := ihh.2 hs
          refine ⟨herr, hres, ⟨ResultType.Success, m0, rst0, e0, res0⟩ :: rs,
            Iters.step hp rfl hit, by simp [hm, List.append_assoc], fun _ => by simp⟩

theorem emptyChain_first (parser : Parser) (hinv : Inv parser) :
    ∀ {s r}, EmptyChain parser s r → parser s = some r := by
  intro s r h
  induction h with
  | fail hp _ => exact hp
  | @step s' r0 r' hp hst hm _ ih =>
    have hrest : r0.rest = s' := by
      have := hinv s' r0 hp hst
      simpa [hm] using this
    rw [hrest] at ih
    exact ih

theorem inv_parseChar (c : Char) : Inv (parseChar c) := by
  intro s r h hst
  cases s with
  | nil =>
    simp only [parseChar, Option.some.injEq] at h
    subst h
    exact absurd hst (by simp [Result.failure])
  | cons x xs =>
    by_cases hxc : x = c
    · simp only [parseChar, hxc, if_pos rfl, Option.some.injEq] at h
      subst h
      simp [Result.success, hxc]
    · simp only [parseChar, if_neg hxc, Option.some.injEq] at h
      subst h
      exact absurd hst (by simp [Result.failure])

/-- Claim C4: the fuelled many1 loop, whenever it returns, fails exactly when
the first application of the parser on the given input fails, and that first
failure is the returned result; otherwise it succeeds with matched text equal
to the concatenation of one or more successful applications, and the returned
result carries an empty results sequence. The parser is assumed to satisfy
the documented Success invariant (spec section 3). -/
theorem many1_spec (parser : Parser) (fuel : Nat) (s : Str) (hinv : Inv parser) :
    (∀ r, many1 parser fuel s = some r → r.status = ResultType.Failure →
      parser s = some r) ∧
    (∀ rf, parser s = some rf → rf.status = ResultType.Failure → 0 < fuel →
      many1 parser fuel s = some rf) ∧
    (∀ r, many1 parser fuel s = some r → r.status = ResultType.Success →
      r.results = [] ∧ ∃ r0 rs, Iters parser s (r0 :: rs) r.rest ∧
        r.matched = ((r0 :: rs).map Result.matched).flatten) := by
  refine ⟨?_, ?_, ?_⟩
  · intro r h hst
    obtain ⟨_, hchain⟩ := (many1Step_some parser fuel [] s r h).1 hst
    exact emptyChain_first parser hinv hchain
  · intro rf hp hst hfuel
    obtain ⟨n, rfl⟩ : ∃ n, fuel = n + 1 := ⟨fuel - 1, by omega⟩
    obtain ⟨stf, mf, rstf, ef, resf⟩ := rf
    cases stf with
    | Success => exact absurd hst (by simp)
    | Failure => simp [many1, many1Step, hp]
  · intro r h hst
    obtain ⟨_, hres, rs, hit, hm, hne⟩ := (many1Step_some parser fuel [] s r h).2 hst
    obtain ⟨r0, rs', rfl⟩ : ∃ a l, rs = a :: l := by
      cases rs with
      | nil => exact absurd rfl (hne rfl)
      | cons a l => exact ⟨a, l, rfl⟩
    exact ⟨hres, r0, rs', hit, by simpa using hm⟩

/-- Witness for many1_spec at concrete inputs: the first application fails
and many1 propagates exactly that failure. -/
theorem many1_spec_w :
    many1 (parseChar 'a') 3 ['b'] = some (Result.failure (mismatchError 'a' 'b')) :=
  (many1_spec (parseChar 'a') 3 ['b'] (inv_parseChar 'a')).2.1
    (Result.failure (mismatchError 'a' 'b')) rfl rfl (by decide)

theorem manyStep_nonConsuming (parser : Parser) {s : Str} {r0 : Result}
    (hp : parser s = some r0) (hst : r0.status = ResultType.Success)
    (hr : r0.rest = s) :
    ∀ (fuel : Nat) (matched : Str) (items : ResultMap),
      manyStep parser fuel matched s items = none := by
  obtain ⟨st0, m0, rst0, e0, res0⟩ := r0
  have hst' : st0 = ResultType.Success := hst
  subst hst'
  have hr' : rst0 = s := hr
  subst hr'
  intro fuel
  induction fuel with
  | zero => intro matched items; rfl
  | succ fuel ih =>
    intro matched items
    rw [manyStep, hp]
    simp only [Option.some_bind, isFailure_mk_success, Bool.false_eq_true, if_false]
    exact ih _ _

theorem many1Step_nonConsuming (parser : Parser) {s : Str} {r0 : Result}
    (hp : parser s = some r0) (hst : r0.status = ResultType.Success)
    (hr : r0.rest = s) :
    ∀ (fuel : Nat) (matched : Str), many1Step parser fuel matched s = none := by
  obtain ⟨st0, m0, rst0, e0, res0⟩ := r0
  have hst' : st0 = ResultType.Success := hst
  subst hst'
  have hr' : rst0 = s := hr
  subst hr'
  intro fuel
  induction fuel with
  | zero => intro matched; rfl
  | succ fuel ih =>
    intro matched
    rw [many1Step, hp]
    simp only [Option.some_bind, isFailure_mk_success, Bool.false_eq_true, if_false]
    exact ih _

theorem manyStep_total (parser : Parser)
    (hcon : ∀ t r, parser t = some r → r.status = ResultType.Success →
      r.rest.length < t.length)
    (htot : ∀ t, (parser t).isSome) :
    ∀ (fuel : Nat) (input matched : Str) (items : ResultMap), input.length < fuel →
      (manyStep parser fuel matched input items).isSome := by
  intro fuel
  induction fuel with
  | zero => intro input matched items h; exact absurd h (by omega)
  | succ fuel ih =>
    intro input matched items h
    rw [manyStep]
    cases hp : parser input with
    | none => have hs := htot input; rw [hp] at hs; exact absurd hs (by simp)
    | some r0 =>
      obtain ⟨st0, m0, rst0, e0, res0⟩ := r0
      cases st0 with
      | Failure => simp
      | Success =>
        simp only [Option.some_bind, isFailure_mk_success, Bool.false_eq_true, if_false]
        apply ih
        have hlt : rst0.length < input.length := by
          have := hcon input _ hp rfl
          simpa using this
        omega

theorem many1Step_total (parser : Parser)
    (hcon : ∀ t r, parser t = some r → r.status = ResultType.Success →
      r.rest.length < t.length)
    (htot : ∀ t, (parser t).isSome) :
    ∀ (fuel : Nat) (input matched : Str), input.length < fuel →
      (many1Step parser fuel matched input).isSome := by
  intro fuel
  induction fuel with
  | zero => intro input matched h; exact absurd h (by omega)
  | succ fuel ih =>
    intro input matched h
    rw [many1Step]
    cases hp : parser input with
    | none => have hs := htot input; rw [hp] at hs; exact absurd hs (by simp)
    | some r0 =>
      obtain ⟨st0, m0, rst0, e0, res0⟩ := r0
      cases st0 with
      | Failure =>
        by_cases hm : matched.length = 0 <;> simp [hm]
      | Success =>
        simp only [Option.some_bind, isFailure_mk_success, Bool.false_eq_true, if_false]
        apply ih
        have hlt : rst0.length < input.length := by
          have := hcon input _ hp rfl
          simpa using this
        omega

theorem parseChar_consumes (c : Char) : ∀ t r, parseChar c t = some r →
    r.status = ResultType.Success → r.rest.length < t.length := by
  intro t r h hst
  cases t with
  | nil =>
    simp only [parseChar, Option.some.injEq] at h
    subst h
    exact absurd hst (by simp [Result.failure])
  | cons x xs =>
    by_cases hxc : x = c
    · simp only [parseChar, if_pos hxc, Option.some.injEq] at h
      subst h
      simp [Result.success]
    · simp only [parseChar, if_neg hxc, Option.some.injEq] at h
      subst h
      exact absurd hst (by simp [Result.failure])

theorem parseChar_total (c : Char) : ∀ t, (parseChar c t).isSome := fun _ => rfl

/-- Claim C9: the many/many1 loops never return when the inner parser
succeeds at the loop position without consuming anything (as nullParser
always does, and as opt of a failing parser does), for every fuel bound; when
every success of the inner parser strictly consumes and the parser is total,
fuel one beyond the input length suffices for the loops to return; and a
returning many (or succeeding many1) exhibits an iteration chain of the inner
parser that eventually fails. -/
theorem many_many1_termination (parser : Parser) (s : Str) :
    (∀ r0, parser s = some r0 → r0.status = ResultType.Success → r0.rest = s →
      ∀ (fuel : Nat) (matched : Str) (items : ResultMap),
        manyStep parser fuel matched s items = none ∧
        many1Step parser fuel matched s = none) ∧
    (∀ fuel : Nat, many nullParser fuel s = none ∧ many1 nullParser fuel s = none) ∧
    (∀ (q : Parser) (rq : Result) (fuel : Nat), q s = some rq →
      rq.status = ResultType.Failure →
      many (opt q) fuel s = none ∧ many1 (opt q) fuel s = none) ∧
    ((∀ t r, parser t = some r → r.status = ResultType.Success →
        r.rest.length < t.length) → (∀ t, (parser t).isSome) →
      (many parser (s.length + 1) s).isSome ∧ (many1 parser (s.length + 1) s).isSome) ∧
    (∀ (fuel : Nat) (r : Result), many parser fuel s = some r →
      ∃ rs, Iters parser s rs r.rest) ∧
    (∀ (fuel : Nat) (r : Result), many1 parser fuel s = some r →
      r.status = ResultType.Success → ∃ rs, Iters parser s rs r.rest) := by
  refine ⟨?_, ?_, ?_, ?_, ?_, ?_⟩
  · intro r0 hp hst hr fuel matched items
    exact ⟨manyStep_nonConsuming parser hp hst hr fuel matched items,
      many1Step_nonConsuming parser hp hst hr fuel matched⟩
  · intro fuel
    exact ⟨manyStep_nonConsuming nullParser rfl rfl rfl fuel [] [],
      many1Step_nonConsuming nullParser rfl rfl rfl fuel []⟩
  · intro q rq fuel hq hstq
    obtain ⟨stq, mq, rstq, eq0, resq⟩ := rq
    have hstq' : stq = ResultType.Failure := hstq
    subst hstq'
    have hopt : opt q s = some (Result.success [] s) := by
      simp [opt, orElse, hq, nullParser]
    exact ⟨manyStep_nonConsuming (opt q) hopt rfl rfl fuel [] [],
      many1Step_nonConsuming (opt q) hopt rfl rfl fuel []⟩
  · intro hcon htot
    exact ⟨manyStep_total parser hcon htot (s.length + 1) s [] [] (by omega),
      many1Step_total parser hcon htot (s.length + 1) s [] (by omega)⟩
  · intro fuel r h
    obtain ⟨_, _, rs, hit, _, _⟩ := manyStep_some parser fuel [] s [] r h
    exact ⟨rs, hit⟩
  · intro fuel r h hst
    obtain ⟨_, _, rs, hit, _, _⟩ := (many1Step_some parser fuel [] s r h).2 hst
    exact ⟨rs, hit⟩

/-- Witness for many_many1_termination at concrete inputs: many and many1
diverge over the non-consuming opt of a failing parser, and return within
the length bound for the strictly consuming parseChar. -/
theorem many_many1_termination_w :
    (many (opt (parseChar 'a')) 4 ['b'] = none ∧
      many1 (opt (parseChar 'a')) 4 ['b'] = none) ∧
    ((many (parseChar 'a') 2 ['a']).isSome ∧ (many1 (parseChar 'a') 2 ['a']).isSome) :=
  ⟨(many_many1_termination (parseChar 'a') ['b']).2.2.1 (parseChar 'a')
      (Result.failure (mismatchError 'a' 'b')) 4 rfl rfl,
    (many_many1_termination (parseChar 'a') ['a']).2.2.2.1 (parseChar_consumes 'a')
      (parseChar_total 'a')⟩

theorem inv_nullParser : Inv nullParser := by
  intro s r h _
  simp only [nullParser, Option.some.injEq] at h
  subst h
  simp [Result.success]

theorem inv_andThen {p1 p2 : Parser} (h1 : Inv p1) (h2 : Inv p2) :
    Inv (andThen p1 p2) := by
  intro s r h hst
  simp only [andThen] at h
  cases hp : p1 s with
  | none => rw [hp] at h; simp at h
  | some r1 =>
    rw [hp] at h
    obtain ⟨st1, m1, rst1, e1, res1⟩ := r1
    cases st1 with
    | Failure =>
      simp only [Option.some_bind, isFailure_mk_failure, if_true,
        Option.some.injEq] at h
      subst h
      exact absurd hst (by simp)
    | Success =>
      simp only [Option.some_bind, isFailure_mk_success, Bool.false_eq_true,
        if_false] at h
      cases hq : p2 rst1 with
      | none => rw [hq] at h; simp at h
      | some r2 =>
        rw [hq] at h
        obtain ⟨st2, m2, rst2, e2, res2⟩ := r2
        cases st2 with
        | Failure =>
          simp only [Option.some_bind, isFailure_mk_failure, if_true,
            Option.some.injEq] at h
          subst h
          exact absurd hst (by simp)
        | Success =>
          simp only [Option.some_bind, isFailure_mk_success, Bool.false_eq_true,
            if_false, Option.some.injEq, Result.success, Result.combine] at h
          subst h
          have e1 : m1 ++ rst1 = s := h1 s _ hp rfl
          have e2 : m2 ++ rst2 = rst1 := h2 rst1 _ hq rfl
          simp only [List.append_assoc, e2, e1]

theorem inv_orElse {p1 p2 : Parser} (h1 : Inv p1) (h2 : Inv p2) :
    Inv (orElse p1 p2) := by
  intro s r h hst
  simp only [orElse] at h
  cases hp : p1 s with
  | none => rw [hp] at h; simp at h
  | some r1 =>
    rw [hp] at h
    simp only [Option.some_bind] at h
    by_cases hs1 : r1.isSuccess = true
    · rw [if_pos hs1] at h
      injection h with h
      subst h
      exact h1 s _ hp hst
    · rw [if_neg hs1] at h
      exact h2 s _ h hst

theorem iters_splits (parser : Parser) (hinv : Inv parser) :
    ∀ {s rs rest}, Iters parser s rs rest →
      ((rs.map Result.matched).flatten) ++ rest = s := by
  intro s rs rest h
  induction h with
  | stop _ _ => simp
  | @step s' r rs' rest' hp hst _ ih =>
    have hr := hinv s' r hp hst
    simp only [List.map_cons, List.flatten_cons, List.append_assoc, ih, hr]

theorem inv_many {p : Parser} (fuel : Nat) (hp : Inv p) : Inv (many p fuel) := by
  intro s r h _
  obtain ⟨_, _, rs, hit, hm, _⟩ := manyStep_some p fuel [] s [] r h
  have hs := iters_splits p hp hit
  rw [hm]
  simpa using hs

theorem inv_many1 {p : Parser} (fuel : Nat) (hp : Inv p) : Inv (many1 p fuel) := by
  intro s r h hst
  obtain ⟨_, _, rs, hit, hm, _⟩ := (many1Step_some p fuel [] s r h).2 hst
  have hs := iters_splits p hp hit
  rw [hm]
  simpa using hs

theorem inv_mapTo {p : Parser} (name : String) (hp : Inv p) : Inv (mapTo p name) := by
  intro s r h hst
  simp only [mapTo] at h
  cases hq : p s with
  | none => rw [hq] at h; simp at h
  | some r1 =>
    rw [hq] at h
    simp only [Option.map_some'] at h
    by_cases hs1 : r1.isSuccess = true
    · rw [if_pos hs1] at h
      have hinv1 := hp s r1 hq ((isSuccess_iff r1).1 hs1)
      by_cases hr1 : r1.results.length = 0
      · rw [if_pos hr1] at h
        injection h with h
        subst h
        by_cases hm : r1.matched.length > 0 <;> simp [Result.addText, hm, hinv1]
      · rw [if_neg hr1] at h
        injection h with h
        subst h
        simp [Result.addItems, Result.success, hinv1]
    · rw [if_neg hs1] at h
      injection h with h
      subst h
      have hf := (isSuccess_eq_false_iff r1).1 (by simpa using hs1)
      rw [hst] at hf
      simp at hf

theorem inv_refParser {p : Parser} (hp : Inv p) : Inv (refParser p) := hp

theorem built_inv : ∀ {p : Parser}, Built p → Inv p := by
  intro p h
  induction h with
  | pcharB c => exact inv_parseChar c
  | nullB => exact inv_nullParser
  | andThenB _ _ ih1 ih2 => exact inv_andThen ih1 ih2
  | orElseB _ _ ih1 ih2 => exact inv_orElse ih1 ih2
  | manyB fuel _ ih => exact inv_many fuel ih
  | many1B fuel _ ih => exact inv_many1 fuel ih
  | mapToB name _ ih => exact inv_mapTo name ih
  | refB _ ih => exact inv_refParser ih

theorem built_foldl_andThen {p : Parser} {ps : List Parser} (hp : Built p)
    (hps : ∀ q ∈ ps, Built q) : Built (List.foldl andThen p ps) := by
  induction ps generalizing p with
  | nil => exact hp
  | cons q qs ih =>
    exact ih (Built.andThenB hp (hps q (List.mem_cons_self q qs)))
      (fun w hw => hps w (List.mem_cons_of_mem q hw))

theorem built_foldl_orElse {p : Parser} {ps : List Parser} (hp : Built p)
    (hps : ∀ q ∈ ps, Built q) : Built (List.foldl orElse p ps) := by
  induction ps generalizing p with
  | nil => exact hp
  | cons q qs ih =>
    exact ih (Built.orElseB hp (hps q (List.mem_cons_self q qs)))
      (fun w hw => hps w (List.mem_cons_of_mem q hw))

theorem built_sequence {ps : List Parser} {q : Parser} (h : sequence ps = some q)
    (hps : ∀ p ∈ ps, Built p) : Built q := by
  cases ps with
  | nil => simp [sequence, reduce] at h
  | cons p pt =>
    have hq : List.foldl andThen p pt = q := by simpa [sequence, reduce] using h
    subst hq
    exact built_foldl_andThen (hps p (List.mem_cons_self p pt))
      (fun w hw => hps w (List.mem_cons_of_mem p hw))

theorem built_choice {ps : List Parser} {q : Parser} (h : choice ps = some q)
    (hps : ∀ p ∈ ps, Built p) : Built q := by
  cases ps with
  | nil => simp [choice, reduce] at h
  | cons p pt =>
    have hq : List.foldl orElse p pt = q := by simpa [choice, reduce] using h
    subst hq
    exact built_foldl_orElse (hps p (List.mem_cons_self p pt))
      (fun w hw => hps w (List.mem_cons_of_mem p hw))

theorem built_anyOf {value : Str} {q : Parser} (h : anyOf value = some q) : Built q := by
  refine built_choice h ?_
  intro p hp
  simp only [mapWith, List.mem_map] at hp
  obtain ⟨c, _, rfl⟩ := hp
  exact Built.pcharB c

theorem built_parseString {value : Str} {q : Parser} (h : parseString value = some q) :
    Built q := by
  have h' : sequence (mapWith value parseChar) = some q := h
  refine built_sequence h' ?_
  intro p hp
  simp only [mapWith, List.mem_map] at hp
  obtain ⟨c, _, rfl⟩ := hp
  exact Built.pcharB c

theorem built_opt {p : Parser} (hp : Built p) : Built (opt p) :=
  Built.orElseB hp Built.nullB

theorem built_listOf {ws p : Parser} (sep : Char) (fuel : Nat)
    (hws : Built ws) (hp : Built p) : Built (listOf ws p sep fuel) :=
  Built.andThenB
    (Built.mapToB "item" (built_opt (Built.andThenB hws hp)))
    (Built.manyB fuel (Built.andThenB (Built.andThenB (Built.andThenB hws
      (Built.pcharB sep)) hws) hp))

/-- Claim C6: every parser in the Built closure of the exposed constructors
and combinators (with sequence, choice, anyOf, parseString, opt and listOf
covered through the built_sequence, built_choice, built_anyOf,
built_parseString, built_opt and built_listOf lemmas, and refParser taken
with a populated slot), whenever it returns Success, has the matched text a
prefix of the original input and matched concatenated with rest equal to
that input. -/
theorem built_success_splits {p : Parser} (hb : Built p) (s : Str) (r : Result)
    (hp : p s = some r) (hst : r.status = ResultType.Success) :
    r.matched ++ r.rest = s ∧ r.matched <+: s := by
  have h := built_inv hb s r hp hst
  exact ⟨h, ⟨r.rest, h⟩⟩

/-- Witness for built_success_splits at concrete inputs. -/
theorem built_success_splits_w :
    ((['a', 'b'] : Str) ++ ['c'] = ['a', 'b', 'c']) ∧
      (['a', 'b'] : Str) <+: ['a', 'b', 'c'] :=
  built_success_splits (Built.andThenB (Built.pcharB 'a') (Built.pcharB 'b'))
    ['a', 'b', 'c'] ⟨ResultType.Success, ['a', 'b'], ['c'], "", []⟩ rfl rfl

end PC
